import Mathlib

/-!
# Verification of the riptidecrawler-test-sites ground-truth pipeline

Shallow embedding of the ground-truth generation and validation core of the
repository, together with theorems settling the frozen claims about it.

Embedded source units:
* `src/tests/utils/comparison.py` — `ComparisonEngine.compare_stats`,
  `ComparisonEngine.compare_lists`;
* `src/tests/conftest.py` — the `compare` closure of the
  `compare_with_ground_truth` fixture, and the `ground_truth_loader` fixture
  (modelled as an abstract store mapping `(site_name, data_type)` to the
  optionally-present stored data);
* `src/scripts/generate_ground_truth.py` — `GroundTruthGenerator.crawl`,
  `_calculate_depth`, `_extract_entities`;
* `src/scripts/generate_ground_truth_batch.py` — `GroundTruthGenerator.crawl`,
  `_fetch_with_retry`, `_extract_entities`, `_calculate_depth`;
* `src/tests/utils/crawl_helpers.py` — `SimpleCrawler.crawl`.

Modelling conventions: Python scalar values that appear in stats dictionaries
are modelled by `Value` (a number, a string, or `None`); Python numbers are
modelled by `ℚ` (exact arithmetic covers both `int` and `float` for the
comparisons at stake); a Python statement that raises an uncaught exception is
modelled by `Except.error ()`; dictionaries are association lists looked up by
key.  URLs in the crawl models are abstracted to `Nat` identifiers and the
HTML/HTTP layer is abstracted to the functions giving, for each URL, the
outcome the Python code would observe (the links extracted from the fetched
page, or the result of `session.get`); everything downstream of those
observations follows the Python control flow line by line.
-/

namespace Riptide

/-- A Python scalar value as it occurs in a stats dictionary: a number
(`int`/`float`, modelled exactly by `ℚ`), a string, or `None`. -/
inductive Value where
  | num (q : ℚ)
  | str (s : String)
  | null
  deriving DecidableEq, Repr

/-- `d.get(key)` / `key in d` support: first binding of `key` in the
association list (Python dicts have unique keys; lookup order is irrelevant
there and first-match is the faithful reading). -/
def dictGet (key : String) : List (String × Value) → Option Value
  | [] => Option.none
  | (k, v) :: rest => if k = key then some v else dictGet key rest

/-- Python `int(x)` on a rational: truncation toward zero. -/
def pyInt (q : ℚ) : ℤ := if 0 ≤ q then ⌊q⌋ else ⌈q⌉

/-- One difference entry as built by `ComparisonEngine.compare_stats`
(`src/tests/utils/comparison.py`): the `missing`-issue dict, the numeric
mismatch dict (with `difference` and `allowed_difference`), or the exact
mismatch dict for non-numeric values. -/
inductive Diff where
  | missing (key : String) (expected : Value)
  | numMismatch (key : String) (expected actual difference allowed : ℚ)
  | valMismatch (key : String) (expected actual : Value)
  deriving DecidableEq, Repr

/-- The `key` field of a difference entry. -/
def Diff.key : Diff → String
  | .missing k _ => k
  | .numMismatch k _ _ _ _ => k
  | .valMismatch k _ _ => k

namespace ComparisonEngine

/-- The `differences` list accumulated by the `for key in expected` loop of
`ComparisonEngine.compare_stats` (`src/tests/utils/comparison.py` lines
30-64).  For each expected key: a missing key records a `missing` entry;
a numeric expected value is compared with tolerance via
`diff = abs(actual_value - expected_value)` — which raises `TypeError`
(modelled `Except.error ()`) when the actual value is `None` or a string,
since the code performs the subtraction with no type guard on the actual
value; a non-numeric expected value is compared exactly. -/
def statsDiffs (tol : ℚ) (actual : List (String × Value)) :
    List (String × Value) → Except Unit (List Diff)
  | [] => .ok []
  | (key, ev) :: rest =>
    match dictGet key actual with
    | Option.none => (statsDiffs tol actual rest).map (Diff.missing key ev :: ·)
    | some av =>
      match ev with
      | .num e =>
        let allowed := |e * tol|
        match av with
        | .num a =>
          if |a - e| > allowed then
            (statsDiffs tol actual rest).map
              (Diff.numMismatch key e a (|a - e|) allowed :: ·)
          else statsDiffs tol actual rest
        | _ => .error ()
      | _ =>
        if av ≠ ev then
          (statsDiffs tol actual rest).map (Diff.valMismatch key ev av :: ·)
        else statsDiffs tol actual rest

/-- The result dict of `ComparisonEngine.compare_stats`. -/
structure StatsResult where
  passed : Bool
  total_keys : Nat
  matching_keys : Nat
  differences : List Diff
  deriving DecidableEq, Repr

/-- `ComparisonEngine.compare_stats(actual, expected)`
(`src/tests/utils/comparison.py` lines 19-71); `tol` is the engine's
`self.tolerance`.  Returns `Except.error ()` when the Python code would raise
(a `None` or string actual value at a numeric expected key). -/
def compare_stats (tol : ℚ) (actual expected : List (String × Value)) :
    Except Unit StatsResult :=
  (statsDiffs tol actual expected).map fun ds =>
    { passed := ds.isEmpty
      total_keys := expected.length
      matching_keys := expected.length - ds.length
      differences := ds }

/-- The result dict of `ComparisonEngine.compare_lists`. -/
structure ListsResult where
  passed : Bool
  expected_count : Nat
  actual_count : Nat
  difference : ℤ
  allowed_difference : ℤ
  deriving DecidableEq, Repr

/-- `ComparisonEngine.compare_lists(actual, expected)`
(`src/tests/utils/comparison.py` lines 73-96):
`allowed_diff = int(expected_count * self.tolerance)` and the count check
`abs(actual_count - expected_count) <= allowed_diff`. -/
def compare_lists (tol : ℚ) (actual expected : List α) : ListsResult :=
  let actual_count : ℤ := actual.length
  let expected_count : ℤ := expected.length
  let allowed_diff : ℤ := pyInt ((expected.length : ℚ) * tol)
  { passed := decide (|actual_count - expected_count| ≤ allowed_diff)
    expected_count := expected.length
    actual_count := actual.length
    difference := |actual_count - expected_count|
    allowed_difference := allowed_diff }

end ComparisonEngine

/-- Data loaded from a ground-truth file or passed to the conftest `compare`:
a dict (stats) or a list (pages/entities JSONL). -/
inductive PyData where
  | dict (kvs : List (String × Value))
  | list (xs : List Value)
  deriving DecidableEq, Repr

/-- Python `len` on a dict (number of keys) or a list. -/
def pyLen : PyData → Nat
  | .dict kvs => kvs.length
  | .list xs => xs.length

/-- One difference entry as built by the conftest `compare` closure
(`src/tests/conftest.py` lines 218-267): the numeric stats dict (with a
`tolerance` field), the exact stats dict, or the `count_mismatch` dict. -/
inductive CDiff where
  | statNum (key : String) (expected : ℚ) (actual : Value) (tolerance : ℚ)
  | statVal (key : String) (expected actual : Value)
  | countMismatch (expected actual : Nat) (allowed : ℤ)
  deriving DecidableEq, Repr

/-- The `differences` list accumulated by the stats branch of the conftest
`compare` (`src/tests/conftest.py` lines 220-240).  For each expected key,
`actual.get(key)` yields `None` when the key is missing; a numeric expected
value is guarded by `if actual_value is None or abs(actual_value -
expected_value) > allowed_range`, so a `None` actual value records a
difference, while a string actual value still reaches the subtraction and
raises (`Except.error ()`); non-numeric expected values are compared
exactly. -/
def conftestStatsDiffs (tol : ℚ) (actual : List (String × Value)) :
    List (String × Value) → Except Unit (List CDiff)
  | [] => .ok []
  | (key, ev) :: rest =>
    let av := (dictGet key actual).getD Value.null
    match ev with
    | .num e =>
      let allowed := |e * tol|
      match av with
      | .null =>
        (conftestStatsDiffs tol actual rest).map
          (CDiff.statNum key e Value.null allowed :: ·)
      | .num a =>
        if |a - e| > allowed then
          (conftestStatsDiffs tol actual rest).map
            (CDiff.statNum key e (Value.num a) allowed :: ·)
        else conftestStatsDiffs tol actual rest
      | .str _ => .error ()
    | _ =>
      if av ≠ ev then
        (conftestStatsDiffs tol actual rest).map (CDiff.statVal key ev av :: ·)
      else conftestStatsDiffs tol actual rest

/-- The comparison dict returned by the conftest `compare` (the `summary` and
`message` reporting fields, which no claim concerns, are not modelled). -/
structure CompareResult where
  status : String
  differences : List CDiff
  deriving DecidableEq, Repr

/-- The `compare` closure of the `compare_with_ground_truth` fixture
(`src/tests/conftest.py` lines 184-273).  `store` abstracts the
`ground_truth_loader` fixture: `store site_name data_type` is `none` exactly
when the backing file `{site_name}.{data_type}.{ext}` does not exist, and
otherwise holds the loaded data.  A missing file short-circuits to the
`no_ground_truth` result; the `stats` branch compares dictionaries key by
key; the `pages`/`entities` branch compares only counts with
`allowed_diff = int(expected_count * tolerance)`; any other `data_type`
falls through with no differences.  The final status is `pass` with no
differences, else `fail` when `strict` and `warning` otherwise. -/
def conftestCompare (store : String → String → Option PyData) (actual : PyData)
    (site_name data_type : String) (tol : ℚ) (strict : Bool) :
    Except Unit CompareResult :=
  match store site_name data_type with
  | Option.none => .ok { status := "no_ground_truth", differences := [] }
  | some expected =>
    let diffsE : Except Unit (List CDiff) :=
      if data_type = "stats" then
        match actual, expected with
        | .dict akvs, .dict ekvs => conftestStatsDiffs tol akvs ekvs
        | _, _ => .error ()
      else if data_type = "pages" ∨ data_type = "entities" then
        let actual_count : ℤ := pyLen actual
        let expected_count : ℤ := pyLen expected
        let allowed_diff : ℤ := pyInt ((pyLen expected : ℚ) * tol)
        .ok (if |actual_count - expected_count| > allowed_diff then
              [CDiff.countMismatch (pyLen expected) (pyLen actual) allowed_diff]
            else [])
      else .ok []
    diffsE.map fun ds =>
      { status := if ds ≠ [] then (if strict then "fail" else "warning") else "pass"
        differences := ds }

/-! ## JSON-LD entity extraction (`_extract_entities` in both generators) -/

/-- A parsed JSON value (the result of `json.loads` on a
`<script type="application/ld+json">` block). -/
inductive Json where
  | obj (fields : List (String × Json))
  | arr (elems : List Json)
  | str (s : String)
  | num (q : ℚ)
  | bool (b : Bool)
  | null

/-- `d.get(key)` on a parsed JSON object's top-level fields. -/
def jsonGet (key : String) : List (String × Json) → Option Json
  | [] => Option.none
  | (k, v) :: rest => if k = key then some v else jsonGet key rest

/-- Python truthiness of a JSON value (`if entity_type:`). -/
def Json.truthy : Json → Bool
  | .obj fields => !fields.isEmpty
  | .arr xs => !xs.isEmpty
  | .str s => decide (s ≠ "")
  | .num q => decide (q ≠ 0)
  | .bool b => b
  | .null => false

/-- Python truthiness of `item.get('@type')` (`None` for a missing key). -/
def optTruthy : Option Json → Bool
  | Option.none => false
  | some j => j.truthy

/-- Python `==` between a JSON value and an optional string (the config's
`entity_type`): true only for an equal string. -/
def jsonEqStr : Option Json → Option String → Bool
  | some (Json.str t), some s => decide (t = s)
  | _, _ => false

/-- Python truthiness of the configured `entity_type`
(`not expected_type` is true for `None` and for the empty string). -/
def strOptTruthy : Option String → Bool
  | Option.none => false
  | some s => decide (s ≠ "")

/-- One extracted EntityRecord: the entity dict itself, keys in insertion
order. -/
abbrev Entity := List (String × Json)

/-- Python dict insertion `d[k] = v` as it happens while building a dict
literal: a key already present keeps its position and receives the new value
(CPython semantics); a fresh key is appended. -/
def pyDictSet (d : List (String × Json)) (kv : String × Json) :
    List (String × Json) :=
  if d.any fun p => p.1 = kv.1 then
    d.map fun p => if p.1 = kv.1 then (p.1, kv.2) else p
  else d ++ [kv]

/-- The entity dict built from one JSON-LD item:
`{"type": entity_type, "url": url, **{k: v for k, v in item.items() if k not
in ['@context', '@type']}}`.  Dict-literal semantics: the `**`-spread comes
after the synthesized entries, so an item carrying its own literal `type`
(or `url`) key overrides the synthesized value. -/
def mkEntity (t : Json) (url : Nat) (item : List (String × Json)) : Entity :=
  (item.filter fun kv =>
    decide (kv.1 ≠ "@context") && decide (kv.1 ≠ "@type")).foldl
    pyDictSet [("type", t), ("url", Json.num (url : ℚ))]

/-- The batch generator's entity-type filter
(`if entity_type and (entity_type == expected_type or not expected_type):`,
`src/scripts/generate_ground_truth_batch.py` line 475). -/
def batchTypeOk (expected : Option String) (et : Option Json) : Bool :=
  optTruthy et && (jsonEqStr et expected || !strOptTruthy expected)

/-- Processing of one item of a block by the batch generator's
`_extract_entities` inner loop (lines 469-481): a non-dict item raises
`AttributeError` at `item.get('@type')` (modelled `Except.error ()`, caught
by the block-level generic handler); an object item yields an entity exactly
when `batchTypeOk` accepts its `@type`. -/
def batchItemEntity (expected : Option String) (url : Nat) :
    Json → Except Unit (Option Entity)
  | Json.obj fields =>
    let et := jsonGet "@type" fields
    .ok (if batchTypeOk expected et then some (mkEntity (et.getD Json.null) url fields)
         else Option.none)
  | _ => .error ()

/-- The batch generator's per-block item loop: entities appended before a
raising item persist (`self.entities.append` happens in place), and the
generic `except Exception` aborts the rest of the block only. -/
def batchExtractItems (expected : Option String) (url : Nat) :
    List Json → List Entity
  | [] => []
  | item :: rest =>
    match batchItemEntity expected url item with
    | .error _ => []
    | .ok Option.none => batchExtractItems expected url rest
    | .ok (some e) => e :: batchExtractItems expected url rest

/-- Entities contributed by one JSON-LD block in the batch generator's
`_extract_entities` (`src/scripts/generate_ground_truth_batch.py` lines
462-486).  `parsed` is the `json.loads` result (`none` on
`JSONDecodeError`, which is logged and skipped);
`items = data if isinstance(data, list) else [data]` normalizes a single
object and an array to one list of items.  Total: no exception ever escapes
the block. -/
def batchExtractBlock (expected : Option String) (url : Nat)
    (parsed : Option Json) : List Entity :=
  match parsed with
  | Option.none => []
  | some data =>
    batchExtractItems expected url
      (match data with | Json.arr xs => xs | j => [j])

/-- Entities contributed by one JSON-LD block in the simple generator's
`_extract_entities` (`src/scripts/generate_ground_truth.py` lines 160-180).
Only `json.JSONDecodeError` is caught there, so `data.get('@type')` on a
parsed non-dict (in particular a JSON array) raises `AttributeError`
uncaught (modelled `Except.error ()`), which propagates into the crawl
loop's `except Exception` handler where the page is recorded as failed. -/
def simpleExtractBlock (entity_type : String) (url : Nat)
    (parsed : Option Json) : Except Unit (List Entity) :=
  match parsed with
  | Option.none => .ok []
  | some (Json.obj fields) =>
    let et := jsonGet "@type" fields
    .ok (if jsonEqStr et (some entity_type) then
          [mkEntity (et.getD Json.null) url fields]
        else [])
  | some _ => .error ()

/-- Python `==` between `e.get('type')` (a JSON value, or `None` for a
missing key) and the configured `expected_type` (a string or `None`). -/
def pyEqJsonOptStr : Option Json → Option String → Bool
  | Option.none, Option.none => true
  | some (Json.str t), some s => decide (t = s)
  | _, _ => false

/-- The wrong-typed-entity scan of the batch generator's `validate`
(`src/scripts/generate_ground_truth_batch.py` lines 558-567):
`[e for e in self.entities if e.get('type') != expected_type]` — it reads
the entity dict's effective `type` key, which an item's own literal `type`
key may have overridden at extraction time. -/
def validateWrongTypes (expected : Option String) (entities : List Entity) :
    List Entity :=
  entities.filter fun e => !pyEqJsonOptStr (jsonGet "type" e) expected

/-! ## URL depth (`_calculate_depth` in both generators) -/

/-- Python `s.strip(c)`: removes every leading and trailing occurrence of
the character.  Paths are modelled as their character lists. -/
def pyStrip (c : Char) (s : List Char) : List Char :=
  ((s.dropWhile (· = c)).reverse.dropWhile (· = c)).reverse

/-- `GroundTruthGenerator._calculate_depth` (`src/scripts/generate_ground_truth.py`
lines 155-158 and `src/scripts/generate_ground_truth_batch.py` lines 438-449),
applied to `urlparse(url).path`:
`path = urlparse(url).path.strip('/'); return len(path.split('/')) if path else 0`. -/
def calculate_depth (path : List Char) : Nat :=
  let p := pyStrip '/' path
  if p = [] then 0 else (p.splitOn '/').length

/-- The spec's measure for claim C9: the number of non-empty `/`-separated
segments of the URL path (stated from the spec's words, for comparison with
`calculate_depth`). -/
def nonemptySegments (path : List Char) : Nat :=
  ((path.splitOn '/').filter fun s => !s.isEmpty).length

/-! ## The crawl loop of the simple generator (`generate_ground_truth.py`) -/

/-- The `while to_visit and len(self.visited_urls) < max_pages` loop of
`GroundTruthGenerator.crawl` (`src/scripts/generate_ground_truth.py` lines
87-146), under the premise of claims C2/C5 — a finite site graph in which
every fetch succeeds with an HTML 200 response and no redirects: URLs are
abstract `Nat` ids and `links url` is the list of same-domain absolute URLs
extracted from the fetched page of `url` (the `absolute_url.startswith(self.base_url)`
filter is absorbed into `links`).  Each iteration pops the queue head; an
already-visited URL is skipped; otherwise the URL is visited and each of its
links is appended when not already visited
(`if absolute_url not in self.visited_urls: to_visit.append(absolute_url)` —
the queue itself is not consulted).  `fuel` bounds the number of loop
iterations; `none` means the bound was hit before the loop exited. -/
def crawlLoop (links : Nat → List Nat) (max_pages : Nat) :
    Nat → List Nat → Finset Nat → Option (Finset Nat)
  | 0, _, _ => Option.none
  | fuel + 1, to_visit, visited =>
    match to_visit with
    | [] => some visited
    | url :: rest =>
      if visited.card < max_pages then
        if url ∈ visited then
          crawlLoop links max_pages fuel rest visited
        else
          crawlLoop links max_pages fuel
            (rest ++ (links url).filter fun l => decide (l ∉ insert url visited))
            (insert url visited)
      else some visited

/-- `GroundTruthGenerator.crawl` seeded with the site root, together with the
final `stop_reason` update (`src/scripts/generate_ground_truth.py` lines
148-150): `stop_reason` starts as `"completed"` and is set to `"max_pages"`
after the loop exactly when `len(self.visited_urls) >= max_pages`. -/
def crawl (links : Nat → List Nat) (max_pages fuel root : Nat) :
    Option (Finset Nat × String) :=
  (crawlLoop links max_pages fuel [root] ∅).map fun visited =>
    (visited, if max_pages ≤ visited.card then "max_pages" else "completed")

/-- `crawlLoop` instrumented with the append trace: the returned list holds
every URL ever appended to `to_visit` by the loop body, in order (the seed
is not an append).  Used to settle claim C5. -/
def crawlLoopTrace (links : Nat → List Nat) (max_pages : Nat) :
    Nat → List Nat → Finset Nat → List Nat → Option (List Nat)
  | 0, _, _, _ => Option.none
  | fuel + 1, to_visit, visited, log =>
    match to_visit with
    | [] => some log
    | url :: rest =>
      if visited.card < max_pages then
        if url ∈ visited then
          crawlLoopTrace links max_pages fuel rest visited log
        else
          let new := (links url).filter fun l => decide (l ∉ insert url visited)
          crawlLoopTrace links max_pages fuel (rest ++ new) (insert url visited)
            (log ++ new)
      else some log

/-! ## The crawl loop of `SimpleCrawler` (`src/tests/utils/crawl_helpers.py`) -/

/-- The sequential link-enqueue loop of `SimpleCrawler.crawl`
(`src/tests/utils/crawl_helpers.py` lines 75-79): each link is appended when
`link not in self.visited and link not in to_visit`, the queue membership
test seeing appends made earlier in the same loop.  Returns the grown queue
together with the list of newly appended links. -/
def enqueueNew (visited : Finset Nat) : List Nat → List Nat → List Nat × List Nat
  | queue, [] => (queue, [])
  | queue, l :: ls =>
    if decide (l ∉ visited) && !queue.contains l then
      let r := enqueueNew visited (queue ++ [l]) ls
      (r.1, l :: r.2)
    else enqueueNew visited queue ls

/-- The `while to_visit and len(self.visited) < self.max_pages` loop of
`SimpleCrawler.crawl` (`src/tests/utils/crawl_helpers.py` lines 44-87),
instrumented with the append trace: the returned list holds every URL ever
appended to `to_visit`.  `fetch url` tells whether `session.get(url)`
returns (a successful fetch is taken to yield an HTML 200 response whose
extracted same-domain links are `links url`; the per-page domain filter and
`extract_links` deduplication are absorbed into `links`).  When the fetch
raises, the `except` handler records the error and the loop moves on —
crucially, `self.visited.add(url)` (line 56) is reached only after a
successful `session.get`, so a failed URL stays unvisited and can be
re-enqueued by a later page. -/
def simpleCrawlerLoop (links : Nat → List Nat) (fetch : Nat → Bool)
    (max_pages : Nat) :
    Nat → List Nat → Finset Nat → List Nat → Option (List Nat)
  | 0, _, _, _ => Option.none
  | fuel + 1, to_visit, visited, log =>
    match to_visit with
    | [] => some log
    | url :: rest =>
      if visited.card < max_pages then
        if url ∈ visited then
          simpleCrawlerLoop links fetch max_pages fuel rest visited log
        else if fetch url then
          let r := enqueueNew (insert url visited) rest (links url)
          simpleCrawlerLoop links fetch max_pages fuel r.1 (insert url visited)
            (log ++ r.2)
        else
          simpleCrawlerLoop links fetch max_pages fuel rest visited log
      else some log

/-! ## The batch generator's fetch retry and crawl loop
(`generate_ground_truth_batch.py`) -/

/-- The observable part of a `requests` response needed by the batch crawl
loop: the status code, whether the `Content-Type` contains `html`, and the
same-domain links the page would contribute (hrefs resolved by `urljoin`). -/
structure Response where
  status_code : Nat
  is_html : Bool
  links : List Nat
  deriving DecidableEq, Repr

/-- The attempt loop of `GroundTruthGenerator._fetch_with_retry`
(`src/scripts/generate_ground_truth_batch.py` lines 341-380).
`outcome n` is what the `n`-th `session.get` call does: `some resp` when it
returns, `none` when it raises (`Timeout` or any other exception — both
handlers behave identically up to logging).  A raising non-final attempt
sleeps and retries; a raising final attempt returns `None`; with zero
attempts the loop body never runs and the trailing `return None` is reached. -/
def fetchRetryLoop (outcome : Nat → Option Response) :
    Nat → Nat → Option Response
  | _, 0 => Option.none
  | attempt, remaining + 1 =>
    match outcome attempt with
    | some resp => some resp
    | Option.none => fetchRetryLoop outcome (attempt + 1) remaining

/-- `GroundTruthGenerator._fetch_with_retry(url)` for a URL whose successive
`session.get` attempts behave as `outcome`, with the configured
`retry_attempts`. -/
def fetch_with_retry (outcome : Nat → Option Response) (retry_attempts : Nat) :
    Option Response :=
  fetchRetryLoop outcome 0 retry_attempts

/-- The mutable counters of the batch generator's `self.stats` touched by the
crawl loop. -/
structure BatchStats where
  pages_crawled : Nat
  pages_failed : Nat
  deriving DecidableEq, Repr

/-- The `while to_visit and len(self.visited_urls) < max_pages` loop of the
batch `GroundTruthGenerator.crawl` (`src/scripts/generate_ground_truth_batch.py`
lines 259-335).  `fetch url` is the result of `self._fetch_with_retry(url)`
(`none` when every attempt raised), `should_crawl` is `self._should_crawl`
(domain and binary-extension filter).  A `None` fetch result hits
`if response is None: continue` — the URL is neither marked visited nor
counted as failed; a 200 HTML response enqueues the page's links filtered by
`should_crawl` and `not in self.visited_urls`, and increments
`pages_crawled`; a non-200 response increments `pages_failed`.  The
rate-limit sleep, page records and entity extraction do not affect the
traversal and are not modelled. -/
def batchCrawlLoop (fetch : Nat → Option Response) (should_crawl : Nat → Bool)
    (max_pages : Nat) :
    Nat → List Nat → Finset Nat → BatchStats → Option (Finset Nat × BatchStats)
  | 0, _, _, _ => Option.none
  | fuel + 1, to_visit, visited, stats =>
    match to_visit with
    | [] => some (visited, stats)
    | url :: rest =>
      if visited.card < max_pages then
        if url ∈ visited then
          batchCrawlLoop fetch should_crawl max_pages fuel rest visited stats
        else
          match fetch url with
          | Option.none =>
            batchCrawlLoop fetch should_crawl max_pages fuel rest visited stats
          | some resp =>
            if resp.status_code = 200 then
              let new := if resp.is_html then
                  resp.links.filter fun l =>
                    should_crawl l && decide (l ∉ insert url visited)
                else []
              batchCrawlLoop fetch should_crawl max_pages fuel (rest ++ new)
                (insert url visited)
                { stats with pages_crawled := stats.pages_crawled + 1 }
            else
              batchCrawlLoop fetch should_crawl max_pages fuel rest
                (insert url visited)
                { stats with pages_failed := stats.pages_failed + 1 }
      else some (visited, stats)

/-- Reachability in the abstract site graph: the pages reachable from the
seed root by following extracted links. -/
inductive Reachable (links : Nat → List Nat) (root : Nat) : Nat → Prop
  | refl : Reachable links root root
  | step {p q : Nat} : Reachable links root p → q ∈ links p →
      Reachable links root q

/-- Enough loop iterations for `crawlLoop` on a site graph whose pages are
`pages`: one per queue entry ever present, bounded by the seed plus the total
number of links of all pages. -/
def crawlFuel (links : Nat → List Nat) (pages : Finset Nat) : Nat :=
  2 + ∑ p ∈ pages, (links p).length

/-! ## Helper notions for the comparator claims -/

/-- Whether a `Value` is numeric (`isinstance(v, (int, float))`). -/
def isNum : Value → Bool
  | .num _ => true
  | _ => false

/-- The difference entry (if any) that `ComparisonEngine.compare_stats`
produces for one expected key, as a standalone function of that entry. -/
def engineDiffOfEntry (tol : ℚ) (actual : List (String × Value))
    (kv : String × Value) : Option Diff :=
  match dictGet kv.1 actual with
  | Option.none => some (.missing kv.1 kv.2)
  | some av =>
    match kv.2 with
    | .num e =>
      match av with
      | .num a =>
        if |a - e| > |e * tol| then
          some (.numMismatch kv.1 e a (|a - e|) (|e * tol|))
        else Option.none
      | _ => Option.none
    | ev => if av ≠ ev then some (.valMismatch kv.1 ev av) else Option.none

/-- One expected entry agrees with the actual dictionary: a numeric expected
value is matched by a numeric actual value within the absolute tolerance
`|expected * tol|`; a non-numeric expected value is matched exactly. -/
def entryWithinTolerance (tol : ℚ) (actual : List (String × Value))
    (kv : String × Value) : Prop :=
  match kv.2 with
  | .num e => ∃ a, dictGet kv.1 actual = some (Value.num a) ∧ |a - e| ≤ |e * tol|
  | v => dictGet kv.1 actual = some v

/-- An input is raise-free for `ComparisonEngine.compare_stats` when no
numeric expected key faces a non-numeric present actual value (the
configuration under which the Python subtraction cannot raise). -/
def RaiseFree (actual expected : List (String × Value)) : Prop :=
  ∀ kv ∈ expected, isNum kv.2 = true →
    ∀ av, dictGet kv.1 actual = some av → isNum av = true

theorem statsDiffs_eq_filterMap (tol : ℚ) (actual : List (String × Value)) :
    ∀ expected : List (String × Value), RaiseFree actual expected →
      ComparisonEngine.statsDiffs tol actual expected =
        .ok (expected.filterMap (engineDiffOfEntry tol actual)) := by
  intro expected hsafe
  induction expected with
  | nil => rfl
  | cons kv rest ih =>
    obtain ⟨key, ev⟩ := kv
    have hrest := ih fun kv h => hsafe kv (List.mem_cons_of_mem _ h)
    have hhead := hsafe (key, ev) (List.mem_cons_self _ _)
    simp only [ComparisonEngine.statsDiffs, List.filterMap_cons, engineDiffOfEntry]
    cases hget : dictGet key actual with
    | none => simp [hget, hrest, Except.map]
    | some av =>
      cases ev with
      | num e =>
        cases av with
        | num a =>
          by_cases hd : |a - e| > |e * tol|
          · simp [hget, hd, hrest, Except.map]
          · simp [hget, hd, hrest, Except.map]
        | str s => exact absurd (hhead rfl _ hget) (by simp [isNum])
        | null => exact absurd (hhead rfl _ hget) (by simp [isNum])
      | str s =>
        by_cases he : av = Value.str s
        · simp [hget, he, hrest, Except.map]
        · simp [hget, he, hrest, Except.map]
      | null =>
        by_cases he : av = Value.null
        · simp [hget, he, hrest, Except.map]
        · simp [hget, he, hrest, Except.map]

theorem engineDiffOfEntry_eq_none (tol : ℚ) (actual : List (String × Value))
    (kv : String × Value)
    (hsafe : isNum kv.2 = true →
      ∀ av, dictGet kv.1 actual = some av → isNum av = true) :
    engineDiffOfEntry tol actual kv = Option.none ↔
      entryWithinTolerance tol actual kv := by
  obtain ⟨key, ev⟩ := kv
  simp only [engineDiffOfEntry, entryWithinTolerance]
  cases hget : dictGet key actual with
  | none =>
    cases ev <;> simp [hget]
  | some av =>
    cases ev with
    | num e =>
      cases av with
      | num a =>
        by_cases hd : |a - e| > |e * tol|
        · simp only [hget, if_pos hd]
          constructor
          · intro h
            exact absurd h (by simp)
          · rintro ⟨a', ha', hle⟩
            rw [Option.some_inj, Value.num.injEq] at ha'
            subst ha'
            exact absurd hle (not_le.mpr hd)
        · simp only [hget, if_neg hd]
          constructor
          · intro _
            exact ⟨a, rfl, not_lt.mp hd⟩
          · intro _
            trivial
      | str s =>
        exact absurd (hsafe rfl _ hget) (by simp [isNum])
      | null =>
        exact absurd (hsafe rfl _ hget) (by simp [isNum])
    | str s =>
      by_cases he : av = Value.str s <;>
        simp only [hget, he, ne_eq, not_true_eq_false, if_neg, if_pos,
          not_false_eq_true, ite_not, Option.some_inj] <;>
        simp [he, eq_comm]
    | null =>
      by_cases he : av = Value.null <;>
        simp only [hget, he, ne_eq, not_true_eq_false, if_neg, if_pos,
          not_false_eq_true, ite_not, Option.some_inj] <;>
        simp [he, eq_comm]

/-- C4 (amended): under the raise-free side condition,
`ComparisonEngine.compare_stats` returns normally and passes if and only if
every expected key — numeric ones within the absolute tolerance
`|expected * tol|`, non-numeric ones exactly — is matched by the actual
dictionary (missing keys and non-numeric mismatches therefore also fail the
comparison, not only numeric out-of-tolerance keys); and every numeric key
whose present numeric actual value violates the tolerance bound contributes
a difference entry carrying that key. -/
theorem compare_stats_passed_iff (tol : ℚ) (actual expected : List (String × Value))
    (hsafe : RaiseFree actual expected) :
    ∃ r, ComparisonEngine.compare_stats tol actual expected = .ok r ∧
      (r.passed = true ↔ ∀ kv ∈ expected, entryWithinTolerance tol actual kv) ∧
      (∀ kv ∈ expected, ∀ e a, kv.2 = Value.num e →
        dictGet kv.1 actual = some (Value.num a) → |a - e| > |e * tol| →
        ∃ d ∈ r.differences, d.key = kv.1) := by
  refine ⟨{ passed := (expected.filterMap (engineDiffOfEntry tol actual)).isEmpty
            total_keys := expected.length
            matching_keys :=
              expected.length - (expected.filterMap (engineDiffOfEntry tol actual)).length
            differences := expected.filterMap (engineDiffOfEntry tol actual) },
          ?_, ?_, ?_⟩
  · unfold ComparisonEngine.compare_stats
    rw [statsDiffs_eq_filterMap tol actual expected hsafe]
    rfl
  · simp only [List.isEmpty_iff, List.filterMap_eq_nil]
    constructor
    · intro h kv hkv
      exact (engineDiffOfEntry_eq_none tol actual kv (hsafe kv hkv)).mp (h kv hkv)
    · intro h kv hkv
      exact (engineDiffOfEntry_eq_none tol actual kv (hsafe kv hkv)).mpr (h kv hkv)
  · rintro ⟨key, ev⟩ hkv e a hev hget hviol
    refine ⟨Diff.numMismatch key e a (|a - e|) (|e * tol|), ?_, rfl⟩
    simp only [List.mem_filterMap]
    refine ⟨(key, ev), hkv, ?_⟩
    simp only at hev
    subst hev
    simp [engineDiffOfEntry, hget, hviol]

/-- C4 (counterexample): on a pair of stats dictionaries with no numeric key
at all, the tolerance condition of the claim holds vacuously, yet
`ComparisonEngine.compare_stats` does not pass — the non-numeric key
`stop_reason` differs and produces a difference entry, so "pass iff every
numeric key is within tolerance" is false as stated. -/
theorem compare_stats_pass_iff_counterexample :
    (∀ kv ∈ [("stop_reason", Value.str "completed")], isNum kv.2 = false) ∧
    ComparisonEngine.compare_stats (1/20) [("stop_reason", Value.str "x")]
        [("stop_reason", Value.str "completed")] =
      .ok { passed := false, total_keys := 1, matching_keys := 0,
            differences := [Diff.valMismatch "stop_reason"
              (Value.str "completed") (Value.str "x")] } := by
  exact ⟨by decide, by rfl⟩

/-- C4 (witness): the amended theorem applied to a concrete raise-free input:
a single numeric key within tolerance passes. -/
theorem compare_stats_passed_iff_witness :
    ∃ r, ComparisonEngine.compare_stats (1/10) [("pages_crawled", Value.num 99)]
        [("pages_crawled", Value.num 100)] = .ok r ∧ r.passed = true := by
  obtain ⟨r, hr, hiff, _⟩ :=
    compare_stats_passed_iff (1/10) [("pages_crawled", Value.num 99)]
      [("pages_crawled", Value.num 100)]
      (by
        rintro kv hkv _ av hav
        simp only [List.mem_singleton] at hkv
        subst hkv
        have h99 : some (Value.num 99) = some av :=
          (show dictGet "pages_crawled" [("pages_crawled", Value.num 99)] =
              some (Value.num 99) from rfl).symm.trans hav
        cases h99
        rfl)
  refine ⟨r, hr, hiff.mpr ?_⟩
  rintro kv hkv
  simp only [List.mem_singleton] at hkv
  subst hkv
  refine ⟨99, by rfl, by norm_num⟩

/-- C1: the claim that a `None` actual value at a numeric expected key is
recorded as a difference and never raises holds for the conftest `compare`
but not for `ComparisonEngine.compare_stats`: on the same input the engine
reaches `abs(actual_value - expected_value)` with `actual_value = None` and
raises `TypeError` (modelled `Except.error ()`), while the conftest
implementation's `is None` guard records the difference entry. -/
theorem none_actual_engine_raises_conftest_records :
    ComparisonEngine.compare_stats (1/20) [("pages_crawled", Value.null)]
        [("pages_crawled", Value.num 10)] = .error () ∧
    conftestStatsDiffs (1/20) [("pages_crawled", Value.null)]
        [("pages_crawled", Value.num 10)] =
      .ok [CDiff.statNum "pages_crawled" 10 Value.null (|(10 : ℚ) * (1/20)|)] := by
  exact ⟨by rfl, by rfl⟩

/-- C3: the conftest `compare` returns the `no_ground_truth` status (and no
exception) exactly when the stored ground-truth file for
`(site_name, data_type)` is absent, and any normally-returned result
otherwise carries status `pass` on an empty difference list, `fail` on a
non-empty one with `strict = true`, and `warning` on a non-empty one with
`strict = false`. -/
theorem compare_status_resolution (store : String → String → Option PyData)
    (actual : PyData) (site_name data_type : String) (tol : ℚ) (strict : Bool) :
    (store site_name data_type = Option.none →
      conftestCompare store actual site_name data_type tol strict =
        .ok { status := "no_ground_truth", differences := [] }) ∧
    (∀ r, conftestCompare store actual site_name data_type tol strict = .ok r →
      store site_name data_type ≠ Option.none →
      r.status = if r.differences = [] then "pass"
        else if strict then "fail" else "warning") := by
  constructor
  · intro h
    simp [conftestCompare, h]
  · intro r hr hne
    unfold conftestCompare at hr
    cases hst : store site_name data_type with
    | none => exact absurd hst hne
    | some expected =>
      rw [hst] at hr
      simp only at hr
      revert hr
      generalize (if data_type = "stats" then
          match actual, expected with
          | PyData.dict akvs, PyData.dict ekvs => conftestStatsDiffs tol akvs ekvs
          | _, _ => Except.error ()
        else if data_type = "pages" ∨ data_type = "entities" then
          Except.ok (if |(pyLen actual : ℤ) - (pyLen expected : ℤ)| >
                pyInt ((pyLen expected : ℚ) * tol) then
              [CDiff.countMismatch (pyLen expected) (pyLen actual)
                (pyInt ((pyLen expected : ℚ) * tol))]
            else [])
        else Except.ok []) = dE
      intro hr
      cases dE with
      | error e => cases hr
      | ok ds =>
        cases hr
        by_cases hds : ds = [] <;> simp [hds]

/-- C3 (witness): with an empty store, a concrete call reports
`no_ground_truth`. -/
theorem compare_status_resolution_witness :
    conftestCompare (fun _ _ => Option.none) (PyData.list []) "happy-path"
        "stats" (1/20) false =
      .ok { status := "no_ground_truth", differences := [] } :=
  (compare_status_resolution (fun _ _ => Option.none) (PyData.list [])
    "happy-path" "stats" (1/20) false).1 rfl

/-- C10: in the list-count comparisons the allowed difference is
`int(expected_count * tolerance)` (integer truncation), so whenever
`expected_count * tolerance < 1` the allowed difference is zero and the
comparison passes only on an exactly equal count — both in
`ComparisonEngine.compare_lists` and in the `pages`/`entities` branch of the
conftest `compare`. -/
theorem compare_lists_small_tolerance_exact (tol : ℚ) (actual expected : List Value)
    (htol : 0 ≤ tol) (hsmall : (expected.length : ℚ) * tol < 1) :
    (ComparisonEngine.compare_lists tol actual expected).allowed_difference =
      pyInt ((expected.length : ℚ) * tol) ∧
    ((ComparisonEngine.compare_lists tol actual expected).passed = true ↔
      actual.length = expected.length) ∧
    (∀ (store : String → String → Option PyData) site_name data_type strict r,
      (data_type = "pages" ∨ data_type = "entities") →
      store site_name data_type = some (PyData.list expected) →
      conftestCompare store (PyData.list actual) site_name data_type tol strict =
        .ok r →
      (r.differences = [] ↔ actual.length = expected.length)) := by
  have hnonneg : (0 : ℚ) ≤ (expected.length : ℚ) * tol :=
    mul_nonneg (Nat.cast_nonneg _) htol
  have hzero : pyInt ((expected.length : ℚ) * tol) = 0 := by
    unfold pyInt
    rw [if_pos hnonneg]
    exact Int.floor_eq_zero_iff.mpr ⟨hnonneg, hsmall⟩
  refine ⟨rfl, ?_, ?_⟩
  · simp only [ComparisonEngine.compare_lists, hzero, decide_eq_true_eq]
    rw [abs_nonpos_iff, sub_eq_zero]
    omega
  · intro store site_name data_type strict r hdt hst hr
    have hnstats : ¬ data_type = "stats" := by
      rcases hdt with h | h <;> simp [h]
    unfold conftestCompare at hr
    rw [hst] at hr
    simp only at hr
    rw [if_neg hnstats, if_pos hdt] at hr
    simp only [pyLen] at hr
    rw [hzero] at hr
    by_cases hgt : |(actual.length : ℤ) - (expected.length : ℤ)| > 0
    · rw [if_pos hgt] at hr
      cases hr
      constructor
      · intro h
        exact absurd h (List.cons_ne_nil _ _)
      · intro h
        rw [h, sub_self, abs_zero] at hgt
        exact absurd hgt (lt_irrefl 0)
    · rw [if_neg hgt] at hr
      cases hr
      simp only [true_iff]
      have h0 : (actual.length : ℤ) - (expected.length : ℤ) = 0 :=
        abs_nonpos_iff.mp (not_lt.mp hgt)
      omega

/-- C10 (witness): with five expected items at the default 5% tolerance the
allowed difference truncates to zero, and an equal actual count passes. -/
theorem compare_lists_small_tolerance_exact_witness :
    (ComparisonEngine.compare_lists (1/20)
        [Value.num 1, Value.num 2, Value.num 3, Value.num 4, Value.num 5]
        [Value.num 1, Value.num 2, Value.num 3, Value.num 4, Value.num 5]).passed
      = true :=
  ((compare_lists_small_tolerance_exact (1/20) _ _ (by norm_num)
    (by norm_num)).2.1).mpr rfl

/-! ## Claim C9: URL depth -/

theorem intercalate_cons₂ (sep x y : List Char) (zs : List (List Char)) :
    List.intercalate sep (x :: y :: zs) = x ++ sep ++ List.intercalate sep (y :: zs) := by
  simp [List.intercalate, List.intersperse]

theorem intercalate_single (sep x : List Char) : List.intercalate sep [x] = x := by
  simp [List.intercalate, List.intersperse]

theorem dropWhile_eq_self_of_head? {α : Type} (p : α → Bool) (l : List α) (a : α)
    (h : l.head? = some a) (hp : p a = false) : l.dropWhile p = l := by
  cases l with
  | nil => cases h
  | cons x xs =>
    rw [List.head?_cons, Option.some_inj] at h
    subst h
    rw [List.dropWhile_cons, hp]
    simp

theorem intercalate_head_ne (segs : List (List Char)) (hne : segs ≠ [])
    (h : ∀ s ∈ segs, s ≠ [] ∧ '/' ∉ s) :
    ∃ c, (List.intercalate ['/'] segs).head? = some c ∧ c ≠ '/' := by
  cases segs with
  | nil => exact absurd rfl hne
  | cons s rest =>
    obtain ⟨hne', hnotin⟩ := h s (List.mem_cons_self _ _)
    cases s with
    | nil => exact absurd rfl hne'
    | cons c s' =>
      refine ⟨c, ?_, fun hc => hnotin (hc ▸ List.mem_cons_self _ _)⟩
      cases rest with
      | nil => rw [intercalate_single]; rfl
      | cons y zs => rw [intercalate_cons₂, List.cons_append, List.cons_append]; rfl

theorem intercalate_getLast_ne (segs : List (List Char)) (hne : segs ≠ [])
    (h : ∀ s ∈ segs, s ≠ [] ∧ '/' ∉ s) :
    ∃ d, (List.intercalate ['/'] segs).getLast? = some d ∧ d ≠ '/' := by
  induction segs with
  | nil => exact absurd rfl hne
  | cons s rest ih =>
    cases rest with
    | nil =>
      obtain ⟨hne', hnotin⟩ := h s (List.mem_cons_self _ _)
      rw [intercalate_single]
      exact ⟨s.getLast hne', List.getLast?_eq_getLast s hne',
        fun hc => hnotin (hc ▸ List.getLast_mem hne')⟩
    | cons y zs =>
      obtain ⟨d, hd, hd'⟩ := ih (List.cons_ne_nil _ _)
        (fun t ht => h t (List.mem_cons_of_mem _ ht))
      refine ⟨d, ?_, hd'⟩
      rw [intercalate_cons₂, List.append_assoc, List.getLast?_append,
        List.getLast?_append, hd]
      rfl

theorem pyStrip_slash_intercalate (segs : List (List Char)) (hne : segs ≠ [])
    (h : ∀ s ∈ segs, s ≠ [] ∧ '/' ∉ s) :
    pyStrip '/' ('/' :: List.intercalate ['/'] segs) =
      List.intercalate ['/'] segs := by
  obtain ⟨c, hc, hc'⟩ := intercalate_head_ne segs hne h
  obtain ⟨d, hd, hd'⟩ := intercalate_getLast_ne segs hne h
  unfold pyStrip
  rw [List.dropWhile_cons]
  simp only [decide_True, if_true]
  rw [dropWhile_eq_self_of_head? (fun x => decide (x = '/'))
      (List.intercalate ['/'] segs) c hc (decide_eq_false hc'),
    dropWhile_eq_self_of_head? (fun x => decide (x = '/'))
      (List.intercalate ['/'] segs).reverse d
      (by rw [List.head?_reverse]; exact hd) (decide_eq_false hd'),
    List.reverse_reverse]

/-- C9 (amended): for a URL whose path is `/` followed by non-empty,
slash-free segments joined by `/` — in particular `/a/b/c`, and the bare
root `/` for the empty segment list — the recorded depth equals the number
of segments, which on such paths is exactly the number of non-empty path
segments.  (On paths with empty interior segments such as `/a//b` the two
measures differ: `split('/')` counts empty segments too; see the
counterexample.) -/
theorem calculate_depth_canonical_path (segs : List (List Char))
    (h : ∀ s ∈ segs, s ≠ [] ∧ '/' ∉ s) :
    calculate_depth ('/' :: List.intercalate ['/'] segs) = segs.length ∧
    nonemptySegments ('/' :: List.intercalate ['/'] segs) = segs.length := by
  cases hsegs : segs with
  | nil => exact ⟨by decide, by decide⟩
  | cons s rest =>
    subst hsegs
    have hne : s :: rest ≠ ([] : List (List Char)) := List.cons_ne_nil _ _
    have hsplit : (List.intercalate ['/'] (s :: rest)).splitOn '/' = s :: rest :=
      List.splitOn_intercalate (s :: rest) '/' (fun l hl => (h l hl).2) hne
    have hfull : ('/' :: List.intercalate ['/'] (s :: rest)).splitOn '/' =
        [] :: s :: rest := by
      have heq : ('/' :: List.intercalate ['/'] (s :: rest)) =
          List.intercalate ['/'] ([] :: s :: rest) := by
        rw [intercalate_cons₂]
        rfl
      rw [heq]
      exact List.splitOn_intercalate ([] :: s :: rest) '/'
        (by
          rintro l hl
          rcases List.mem_cons.mp hl with hl | hl
          · subst hl; exact List.not_mem_nil _
          · exact (h l hl).2)
        (List.cons_ne_nil _ _)
    constructor
    · unfold calculate_depth
      rw [pyStrip_slash_intercalate (s :: rest) hne h]
      have hAne : List.intercalate ['/'] (s :: rest) ≠ [] := by
        obtain ⟨c, hc, _⟩ := intercalate_head_ne (s :: rest) hne h
        intro hnil
        rw [hnil] at hc
        cases hc
      rw [if_neg hAne, hsplit]
    · unfold nonemptySegments
      rw [hfull, List.filter_cons]
      have hfilter : List.filter (fun s => !s.isEmpty) (s :: rest) = s :: rest :=
        List.filter_eq_self.mpr fun a ha => by
          rcases h a ha with ⟨hane, _⟩
          cases a with
          | nil => exact absurd rfl hane
          | cons x t => rfl
      simp [hfilter]

/-- C9 (counterexample): the claim fails on a URL whose path contains an
empty interior segment: for path `/a//b` the code records depth 3
(`'a//b'.split('/')` has three chunks, the empty middle one included) while
the number of non-empty path segments is 2. -/
theorem calculate_depth_counterexample :
    calculate_depth ['/', 'a', '/', '/', 'b'] = 3 ∧
    nonemptySegments ['/', 'a', '/', '/', 'b'] = 2 := by
  exact ⟨by decide, by decide⟩

/-- C9 (witness): the amended theorem at the concrete path `/a/b/c`:
depth 3 and three non-empty segments. -/
theorem calculate_depth_canonical_path_witness :
    calculate_depth ['/', 'a', '/', 'b', '/', 'c'] = 3 ∧
    nonemptySegments ['/', 'a', '/', 'b', '/', 'c'] = 3 :=
  calculate_depth_canonical_path [['a'], ['b'], ['c']] (by decide)

/-! ## Claims C6 and C8: JSON-LD extraction -/

theorem batchExtractBlock_obj (expected : Option String) (url : Nat)
    (fields : List (String × Json)) :
    batchExtractBlock expected url (some (Json.obj fields)) =
      if batchTypeOk expected (jsonGet "@type" fields) then
        [mkEntity ((jsonGet "@type" fields).getD Json.null) url fields]
      else [] := by
  by_cases hb : batchTypeOk expected (jsonGet "@type" fields) <;>
    simp [batchExtractBlock, batchExtractItems, batchItemEntity, hb]

theorem batchExtractItems_map_obj (expected : Option String) (url : Nat) :
    ∀ objs : List (List (String × Json)),
      batchExtractItems expected url (objs.map Json.obj) =
        (objs.filter fun fields => batchTypeOk expected (jsonGet "@type" fields)).map
          fun fields => mkEntity ((jsonGet "@type" fields).getD Json.null) url fields
  | [] => rfl
  | o :: os => by
    rw [List.map_cons, List.filter_cons]
    by_cases hb : batchTypeOk expected (jsonGet "@type" o) <;>
      simp [batchExtractItems, batchItemEntity, hb,
        batchExtractItems_map_obj expected url os]

theorem jsonGet_append_ne (key k0 : String) (v0 : Json) (hne : k0 ≠ key) :
    ∀ d : List (String × Json), jsonGet key (d ++ [(k0, v0)]) = jsonGet key d
  | [] => by
    show (if k0 = key then some v0 else jsonGet key []) = jsonGet key []
    rw [if_neg hne]
  | (k, v) :: rest => by
    rw [List.cons_append]
    show (if k = key then some v else jsonGet key (rest ++ [(k0, v0)])) =
      (if k = key then some v else jsonGet key rest)
    rw [jsonGet_append_ne key k0 v0 hne rest]

theorem jsonGet_map_override_ne (key k0 : String) (v0 : Json) (hne : k0 ≠ key) :
    ∀ d : List (String × Json),
      jsonGet key (d.map fun p => if p.1 = k0 then (p.1, v0) else p) =
        jsonGet key d
  | [] => rfl
  | (k, v) :: rest => by
    rw [List.map_cons]
    by_cases hp : k = k0
    · have hk : ¬ k = key := by
        rw [hp]
        exact hne
      rw [show (if ((k, v) : String × Json).1 = k0 then
          (((k, v) : String × Json).1, v0) else (k, v)) = (k, v0) from by
        simp [hp]]
      show (if k = key then some v0
          else jsonGet key (rest.map fun p => if p.1 = k0 then (p.1, v0) else p)) =
        (if k = key then some v else jsonGet key rest)
      rw [if_neg hk, if_neg hk]
      exact jsonGet_map_override_ne key k0 v0 hne rest
    · rw [show (if ((k, v) : String × Json).1 = k0 then
          (((k, v) : String × Json).1, v0) else (k, v)) = (k, v) from by
        simp [hp]]
      show (if k = key then some v
          else jsonGet key (rest.map fun p => if p.1 = k0 then (p.1, v0) else p)) =
        (if k = key then some v else jsonGet key rest)
      by_cases hpk : k = key
      · rw [if_pos hpk, if_pos hpk]
      · rw [if_neg hpk, if_neg hpk]
        exact jsonGet_map_override_ne key k0 v0 hne rest

theorem jsonGet_pyDictSet_ne (key k0 : String) (v0 : Json)
    (d : List (String × Json)) (hne : k0 ≠ key) :
    jsonGet key (pyDictSet d (k0, v0)) = jsonGet key d := by
  show jsonGet key
      (if d.any fun p => decide (p.1 = k0) then
        d.map fun p => if p.1 = k0 then (p.1, v0) else p
      else d ++ [(k0, v0)]) = jsonGet key d
  by_cases hany : (d.any fun p => decide (p.1 = k0)) = true
  · rw [if_pos hany]
    exact jsonGet_map_override_ne key k0 v0 hne d
  · rw [if_neg hany]
    exact jsonGet_append_ne key k0 v0 hne d

theorem jsonGet_foldl_pyDictSet_ne (key : String) :
    ∀ (l d : List (String × Json)), (∀ kv ∈ l, kv.1 ≠ key) →
      jsonGet key (l.foldl pyDictSet d) = jsonGet key d
  | [], _, _ => rfl
  | (k, v) :: rest, d, h => by
    rw [List.foldl_cons,
      jsonGet_foldl_pyDictSet_ne key rest (pyDictSet d (k, v))
        (fun kv hkv => h kv (List.mem_cons_of_mem _ hkv))]
    exact jsonGet_pyDictSet_ne key k v d (h (k, v) (List.mem_cons_self _ _))

/-- The effective `type` key of an extracted entity equals the item's
`@type` whenever the item carries no literal `type` key of its own. -/
theorem mkEntity_type (t : Json) (url : Nat) (item : List (String × Json))
    (h : ∀ kv ∈ item, kv.1 ≠ "type") :
    jsonGet "type" (mkEntity t url item) = some t := by
  unfold mkEntity
  rw [jsonGet_foldl_pyDictSet_ne "type"
    (item.filter fun kv => decide (kv.1 ≠ "@context") && decide (kv.1 ≠ "@type"))
    [("type", t), ("url", Json.num (url : ℚ))]
    (fun kv hkv => h kv (List.mem_filter.mp hkv).1)]
  rfl

theorem jsonEqStr_eq_some (et : Option Json) (s : String)
    (h : jsonEqStr et (some s) = true) : et = some (Json.str s) := by
  cases et with
  | none => exact absurd h (by simp [jsonEqStr])
  | some j =>
    cases j with
    | str t =>
      have ht : t = s := by simpa [jsonEqStr] using h
      rw [ht]
    | obj fields => exact absurd h (by simp [jsonEqStr])
    | arr xs => exact absurd h (by simp [jsonEqStr])
    | num q => exact absurd h (by simp [jsonEqStr])
    | bool b => exact absurd h (by simp [jsonEqStr])
    | null => exact absurd h (by simp [jsonEqStr])

/-- C6 (amended): in the batch generator a successfully parsed JSON-LD object
is kept if and only if its `@type` is truthy and equal to the site's
configured non-empty `entity_type` (or the configured type is absent/empty):
the extracted entities of a block are exactly the type-matching objects, so
an object whose `@type` differs from the configured type is dropped from the
extracted set, not kept-and-flagged.  The wrong-type scan of `validate`
reads the entity dict's effective `type` key; for items carrying no literal
`type` key of their own that key equals the extracted `@type`, so the scan
never fires on such freshly extracted entities — but an item whose own
`type` key shadows the synthesized one (dict-literal `**`-spread overrides)
can still be flagged, as the final conjunct shows on a concrete shadowed
item. -/
theorem batch_extract_drops_type_mismatch (expected : String) (url : Nat)
    (objs : List (List (String × Json))) (hne : expected ≠ "") :
    (batchExtractBlock (some expected) url
        (some (Json.arr (objs.map Json.obj))) =
      (objs.filter fun fields =>
        batchTypeOk (some expected) (jsonGet "@type" fields)).map
        (fun fields =>
          mkEntity ((jsonGet "@type" fields).getD Json.null) url fields)) ∧
    ((∀ fields ∈ objs, ∀ kv ∈ fields, kv.1 ≠ "type") →
      validateWrongTypes (some expected)
        (batchExtractBlock (some expected) url
          (some (Json.arr (objs.map Json.obj)))) = []) ∧
    (validateWrongTypes (some "Event")
        (batchExtractBlock (some "Event") 7
          (some (Json.obj [("@type", Json.str "Event"),
            ("type", Json.str "Conference")])))).length = 1 := by
  have hmain := batchExtractItems_map_obj (some expected) url objs
  refine ⟨hmain, ?_, by rfl⟩
  intro hnoshadow
  show List.filter _ _ = []
  rw [show batchExtractBlock (some expected) url
        (some (Json.arr (objs.map Json.obj))) =
      batchExtractItems (some expected) url (objs.map Json.obj) from rfl, hmain]
  rw [List.filter_map]
  rw [List.filter_eq_nil.mpr]
  · exact List.map_nil
  · intro fields hfields
    have hb : batchTypeOk (some expected) (jsonGet "@type" fields) = true :=
      (List.mem_filter.mp hfields).2
    unfold batchTypeOk at hb
    have hstr : strOptTruthy (some expected) = true := by
      simp [strOptTruthy, hne]
    rw [hstr] at hb
    simp only [Bool.not_true, Bool.or_false, Bool.and_eq_true] at hb
    have het := jsonEqStr_eq_some _ _ hb.2
    simp only [Function.comp, het, Option.getD_some]
    rw [mkEntity_type (Json.str expected) url fields
      (fun kv hkv => hnoshadow fields (List.mem_filter.mp hfields).1 kv hkv)]
    simp [pyEqJsonOptStr]

/-- C6 (counterexample): a parsed JSON-LD object whose `@type` (`"Wrong"`)
differs from the configured entity type (`"Event"`) is not appended to the
entities output by the batch generator's `_extract_entities` — the extracted
set is empty, while the same object with the matching type is appended — so
"a type mismatch ... never causes the entity to be dropped" is false. -/
theorem batch_extract_type_mismatch_counterexample :
    batchExtractBlock (some "Event") 0
      (some (Json.obj [("@type", Json.str "Wrong"), ("name", Json.str "x")])) = [] ∧
    (batchExtractBlock (some "Event") 0
      (some (Json.obj [("@type", Json.str "Event"),
        ("name", Json.str "x")]))).length = 1 := by
  exact ⟨rfl, rfl⟩

/-- C6 (witness): the amended theorem at a concrete two-object array with no
shadowing `type` keys: only the `Event`-typed object is extracted, and the
wrong-type scan of `validate` does not fire on the extracted set. -/
theorem batch_extract_drops_type_mismatch_witness :
    batchExtractBlock (some "Event") 0
        (some (Json.arr (List.map Json.obj
          [[("@type", Json.str "Event")], [("@type", Json.str "Wrong")]]))) =
      [mkEntity (Json.str "Event") 0 [("@type", Json.str "Event")]] ∧
    validateWrongTypes (some "Event")
        (batchExtractBlock (some "Event") 0
          (some (Json.arr (List.map Json.obj
            [[("@type", Json.str "Event")], [("@type", Json.str "Wrong")]])))) =
      [] := by
  obtain ⟨h1, h2, _⟩ := batch_extract_drops_type_mismatch "Event" 0
    [[("@type", Json.str "Event")], [("@type", Json.str "Wrong")]] (by decide)
  exact ⟨h1.trans (by rfl), h2 (by decide)⟩

/-- C8 (amended): in the batch generator a JSON-LD block holding an array of
objects is normalized to its item list and contributes, object by object,
exactly what the corresponding single-object blocks would contribute (each
object that passes the entity-type filter yields one EntityRecord), and
block processing is total — it never fails the enclosing page.  In the
simple generator (`generate_ground_truth.py`), however, an array block
raises `AttributeError` (`data.get` on a list), which the crawl loop's
handler turns into a page failure; see the counterexample. -/
theorem batch_extract_array_normalizes (expected : Option String) (url : Nat)
    (objs : List (List (String × Json))) :
    batchExtractBlock expected url (some (Json.arr (objs.map Json.obj))) =
      (objs.map fun fields =>
        batchExtractBlock expected url (some (Json.obj fields))).flatten := by
  rw [show batchExtractBlock expected url (some (Json.arr (objs.map Json.obj))) =
      batchExtractItems expected url (objs.map Json.obj) from rfl,
    batchExtractItems_map_obj]
  induction objs with
  | nil => rfl
  | cons o os ih =>
    rw [List.filter_cons]
    by_cases hb : batchTypeOk expected (jsonGet "@type" o) <;>
      simp [hb, batchExtractBlock_obj, ih]

/-- C8 (counterexample): the simple generator does not normalize arrays: on a
JSON-LD block whose content is an array of one well-typed object,
`_extract_entities` of `generate_ground_truth.py` evaluates
`data.get('@type')` on a list and raises `AttributeError`
(only `json.JSONDecodeError` is caught), so the block's processing fails the
enclosing page instead of yielding one EntityRecord — the claim's "in both
generator variants ... never fails the enclosing page" is false. -/
theorem simple_extract_array_raises :
    simpleExtractBlock "Event" 0
      (some (Json.arr [Json.obj [("@type", Json.str "Event")]])) =
      .error () := rfl

/-! ## Claim C7: retry exhaustion -/

theorem fetchRetryLoop_none (outcome : Nat → Option Response) :
    ∀ (remaining attempt : Nat),
      (∀ i, attempt ≤ i → i < attempt + remaining → outcome i = Option.none) →
      fetchRetryLoop outcome attempt remaining = Option.none
  | 0, _, _ => rfl
  | remaining + 1, attempt, h => by
    rw [fetchRetryLoop, h attempt le_rfl (by omega)]
    exact fetchRetryLoop_none outcome remaining (attempt + 1)
      fun i h1 h2 => h i (by omega) (by omega)

/-- C7 (amended): when every `session.get` attempt for a URL raises,
`_fetch_with_retry` returns `None`; the batch crawl loop then hits
`if response is None: continue` and proceeds to the next queued URL with the
visited set and both stats counters unchanged — in particular
`pages_failed` is NOT incremented (the URL is silently skipped, not recorded
as a failure) — and no exception propagates out of the loop step. -/
theorem fetch_exhaustion_skips_url (outcome : Nat → Option Response)
    (retry_attempts : Nat)
    (hfail : ∀ i, i < retry_attempts → outcome i = Option.none) :
    fetch_with_retry outcome retry_attempts = Option.none ∧
    (∀ (fetch : Nat → Option Response) (should_crawl : Nat → Bool)
        (max_pages fuel url : Nat) (rest : List Nat)
        (visited : Finset Nat) (stats : BatchStats),
      fetch url = Option.none → visited.card < max_pages →
      batchCrawlLoop fetch should_crawl max_pages (fuel + 1) (url :: rest)
          visited stats =
        batchCrawlLoop fetch should_crawl max_pages fuel rest visited stats) := by
  constructor
  · exact fetchRetryLoop_none outcome retry_attempts 0
      fun i _ h2 => hfail i (by omega)
  · intro fetch should_crawl max_pages fuel url rest visited stats hnone hcard
    by_cases hmem : url ∈ visited <;>
      simp [batchCrawlLoop, hcard, hmem, hnone]

/-- C7 (counterexample): with a fetch whose every attempt raises, exhausting
the retries returns `None` and the crawl loop then skips the URL without
recording a failure: crawling the single-URL frontier `[0]` ends with
`pages_failed = 0`, not the `pages_failed = 1` the claim requires. -/
theorem fetch_exhaustion_not_counted :
    fetch_with_retry (fun _ => Option.none) 3 = Option.none ∧
    batchCrawlLoop (fun _ => Option.none) (fun _ => true) 5 3 [0] ∅
        { pages_crawled := 0, pages_failed := 0 } =
      some (∅, { pages_crawled := 0, pages_failed := 0 }) := by
  exact ⟨rfl, by decide⟩

/-- C7 (witness): the amended theorem at a concrete all-raising outcome and a
concrete loop state. -/
theorem fetch_exhaustion_skips_url_witness :
    fetch_with_retry (fun _ => Option.none) 2 = Option.none ∧
    batchCrawlLoop (fun _ => Option.none) (fun _ => true) 4 1 [7] ∅
        { pages_crawled := 0, pages_failed := 0 } =
      batchCrawlLoop (fun _ => Option.none) (fun _ => true) 4 0 [] ∅
        { pages_crawled := 0, pages_failed := 0 } := by
  obtain ⟨h1, h2⟩ := fetch_exhaustion_skips_url (fun _ => Option.none) 2
    (fun _ _ => rfl)
  refine ⟨h1, ?_⟩
  have := h2 (fun _ => Option.none) (fun _ => true) 4 0 7 [] ∅
    { pages_crawled := 0, pages_failed := 0 } rfl (by decide)
  simpa using this

/-! ## Claim C2: crawl budget and stop reason -/

/-- The crawl loop's invariant-carrying workhorse: from any state whose queue
and visited set lie in the page set, whose visited count respects the
budget, which can still reach the root, and whose unexplored frontier sits
in the queue, the loop (given fuel exceeding the standard BFS measure)
terminates in a visited set that either contains the root and is closed
under links, or has exactly `M` elements. -/
theorem crawlLoop_spec (links : Nat → List Nat) (pages : Finset Nat)
    (root M : Nat)
    (hclosed : ∀ p ∈ pages, ∀ q ∈ links p, q ∈ pages) :
    ∀ (fuel : Nat) (queue : List Nat) (visited : Finset Nat),
      (∀ u ∈ queue, u ∈ pages) →
      visited ⊆ pages →
      visited.card ≤ M →
      (root ∈ visited ∨ root ∈ queue) →
      (∀ p ∈ visited, ∀ q ∈ links p, q ∈ visited ∨ q ∈ queue) →
      queue.length + ∑ p ∈ pages \ visited, (links p).length < fuel →
      ∃ v : Finset Nat,
        crawlLoop links M fuel queue visited = some v ∧
        v ⊆ pages ∧ v.card ≤ M ∧
        ((root ∈ v ∧ ∀ p ∈ v, ∀ q ∈ links p, q ∈ v) ∨ v.card = M) := by
  intro fuel
  induction fuel with
  | zero =>
    intro queue visited _ _ _ _ _ hfuel
    omega
  | succ fuel ih =>
    intro queue visited hq hsub hcard hroot hfrontier hfuel
    cases queue with
    | nil =>
      refine ⟨visited, rfl, hsub, hcard, Or.inl ⟨?_, ?_⟩⟩
      · rcases hroot with h | h
        · exact h
        · exact absurd h (List.not_mem_nil _)
      · intro p hp q hq'
        rcases hfrontier p hp q hq' with h | h
        · exact h
        · exact absurd h (List.not_mem_nil _)
    | cons url rest =>
      by_cases hM : visited.card < M
      · by_cases hmem : url ∈ visited
        · rw [show crawlLoop links M (fuel + 1) (url :: rest) visited =
              crawlLoop links M fuel rest visited from by
            simp [crawlLoop, hM, hmem]]
          refine ih rest visited (fun u hu => hq u (List.mem_cons_of_mem _ hu))
            hsub hcard ?_ ?_ ?_
          · rcases hroot with h | h
            · exact Or.inl h
            · rcases List.mem_cons.mp h with h | h
              · exact Or.inl (h ▸ hmem)
              · exact Or.inr h
          · intro p hp q hq'
            rcases hfrontier p hp q hq' with h | h
            · exact Or.inl h
            · rcases List.mem_cons.mp h with h | h
              · exact Or.inl (h ▸ hmem)
              · exact Or.inr h
          · have := hfuel
            simp only [List.length_cons] at this
            omega
        · have hurlp : url ∈ pages := hq url (List.mem_cons_self _ _)
          rw [show crawlLoop links M (fuel + 1) (url :: rest) visited =
              crawlLoop links M fuel
                (rest ++ (links url).filter fun l => decide (l ∉ insert url visited))
                (insert url visited) from by
            simp [crawlLoop, hM, hmem]]
          refine ih
            (rest ++ (links url).filter fun l => decide (l ∉ insert url visited))
            (insert url visited) ?_ ?_ ?_ ?_ ?_ ?_
          · intro u hu
            rcases List.mem_append.mp hu with h | h
            · exact hq u (List.mem_cons_of_mem _ h)
            · exact hclosed url hurlp u (List.mem_filter.mp h).1
          · exact Finset.insert_subset_iff.mpr ⟨hurlp, hsub⟩
          · rw [Finset.card_insert_of_not_mem hmem]
            omega
          · rcases hroot with h | h
            · exact Or.inl (Finset.mem_insert_of_mem h)
            · rcases List.mem_cons.mp h with h | h
              · exact Or.inl (h ▸ Finset.mem_insert_self _ _)
              · exact Or.inr (List.mem_append_left _ h)
          · intro p hp q hq'
            rcases Finset.mem_insert.mp hp with hpu | hpv
            · subst hpu
              by_cases hqv : q ∈ insert p visited
              · exact Or.inl hqv
              · refine Or.inr (List.mem_append_right _ ?_)
                exact List.mem_filter.mpr ⟨hq', by simpa using hqv⟩
            · rcases hfrontier p hpv q hq' with h | h
              · exact Or.inl (Finset.mem_insert_of_mem h)
              · rcases List.mem_cons.mp h with h | h
                · exact Or.inl (h ▸ Finset.mem_insert_self _ _)
                · exact Or.inr (List.mem_append_left _ h)
          · have hsdiff : pages \ insert url visited = (pages \ visited).erase url :=
              Finset.sdiff_insert pages visited url
            have hmemdiff : url ∈ pages \ visited :=
              Finset.mem_sdiff.mpr ⟨hurlp, hmem⟩
            have hsum : (links url).length +
                ∑ p ∈ (pages \ visited).erase url, (links p).length =
                ∑ p ∈ pages \ visited, (links p).length :=
              Finset.add_sum_erase (pages \ visited)
                (fun p => (links p).length) hmemdiff
            have hlenf : ((links url).filter
                fun l => decide (l ∉ insert url visited)).length ≤
                (links url).length := List.length_filter_le _ _
            rw [List.length_append, hsdiff]
            simp only [List.length_cons] at hfuel
            omega
      · refine ⟨visited, by simp [crawlLoop, hM], hsub, hcard,
          Or.inr (le_antisymm hcard (not_lt.mp hM))⟩

/-- C2 (amended): for a finite site graph whose pages are all reachable from
the seed root (and closed under extracted links), the crawl loop terminates
within the computed fuel bound having visited exactly `min(P, M)` distinct
URLs; the recorded `stop_reason` is `completed` if and only if `P < M`, and
`max_pages` otherwise — in particular, at `P = M` the final
`len(visited_urls) >= max_pages` update fires and the stop reason is
`max_pages` even though every page was visited. -/
theorem crawl_visits_min_and_stop_reason (links : Nat → List Nat)
    (pages : Finset Nat) (root M : Nat)
    (hroot : root ∈ pages)
    (hclosed : ∀ p ∈ pages, ∀ q ∈ links p, q ∈ pages)
    (hconn : ∀ p ∈ pages, Reachable links root p) :
    ∃ visited : Finset Nat,
      crawl links M (crawlFuel links pages) root =
        some (visited, if pages.card < M then "completed" else "max_pages") ∧
      visited.card = min pages.card M := by
  obtain ⟨v, hv, hvsub, hvcard, hpost⟩ :=
    crawlLoop_spec links pages root M hclosed (crawlFuel links pages) [root] ∅
      (by
        intro u hu
        rw [List.mem_singleton] at hu
        exact hu ▸ hroot)
      (Finset.empty_subset _)
      (by simp)
      (Or.inr (List.mem_singleton.mpr rfl))
      (by intro p hp; exact absurd hp (Finset.not_mem_empty _))
      (by
        rw [Finset.sdiff_empty]
        simp only [List.length_singleton, crawlFuel]
        omega)
  rcases hpost with ⟨hrv, hclosedv⟩ | hcardM
  · have hpv : pages ⊆ v := by
      intro p hp
      have hr := hconn p hp
      clear hp
      induction hr with
      | refl => exact hrv
      | step hr hq ih => exact hclosedv _ ih _ hq
    have hveq : v = pages := Finset.Subset.antisymm hvsub hpv
    subst hveq
    refine ⟨v, ?_, (min_eq_left hvcard).symm⟩
    unfold crawl
    rw [hv]
    simp only [Option.map_some']
    by_cases hPM : v.card < M
    · rw [if_pos hPM, if_neg (by omega : ¬ M ≤ v.card)]
    · rw [if_neg hPM, if_pos (by omega : M ≤ v.card)]
  · have hMP : M ≤ pages.card := hcardM ▸ Finset.card_le_card hvsub
    refine ⟨v, ?_, ?_⟩
    · unfold crawl
      rw [hv]
      simp only [Option.map_some']
      rw [if_neg (by omega : ¬ pages.card < M), if_pos (by omega : M ≤ v.card)]
    · rw [hcardM, min_eq_right hMP]

/-- C2 (counterexample): a one-page site graph crawled with `max_pages = 1`
has `P = 1 ≤ M = 1`, yet the recorded stop reason is `max_pages`, because
the post-loop update sets it whenever the visited count reached the budget;
so "`stop_reason` is `completed` if and only if `P ≤ M`" is false at
`P = M`. -/
theorem crawl_stop_reason_counterexample :
    crawl (fun _ => []) 1 3 0 = some ({0}, "max_pages") ∧
    ({0} : Finset Nat).card = 1 := by
  exact ⟨by decide, by decide⟩

/-- C2 (witness): the amended theorem on the concrete two-page site
`0 → 1` with budget 5: the crawl completes with both pages visited. -/
theorem crawl_visits_min_and_stop_reason_witness :
    ∃ visited : Finset Nat,
      crawl (fun n => if n = 0 then [1] else []) 5
          (crawlFuel (fun n => if n = 0 then [1] else []) {0, 1}) 0 =
        some (visited,
          if ({0, 1} : Finset Nat).card < 5 then "completed" else "max_pages") ∧
      visited.card = min ({0, 1} : Finset Nat).card 5 :=
  crawl_visits_min_and_stop_reason (fun n => if n = 0 then [1] else [])
    {0, 1} 0 5 (by decide) (by decide)
    (by
      intro p hp
      rcases Finset.mem_insert.mp hp with h | h
      · subst h
        exact Reachable.refl
      · rw [Finset.mem_singleton] at h
        subst h
        exact Reachable.step Reachable.refl (by decide))

/-! ## Claim C5: at-most-once enqueueing -/

theorem enqueueNew_spec (visited : Finset Nat) :
    ∀ (ls queue : List Nat), queue.Nodup → (∀ u ∈ queue, u ∉ visited) →
      (enqueueNew visited queue ls).1 = queue ++ (enqueueNew visited queue ls).2 ∧
      (enqueueNew visited queue ls).1.Nodup ∧
      ∀ u ∈ (enqueueNew visited queue ls).1, u ∉ visited := by
  intro ls
  induction ls with
  | nil =>
    intro queue hnd hnv
    exact ⟨by simp [enqueueNew], by simpa [enqueueNew] using hnd,
      fun u hu => hnv u (by simpa [enqueueNew] using hu)⟩
  | cons l ls ih =>
    intro queue hnd hnv
    by_cases hcond : (decide (l ∉ visited) && !queue.contains l) = true
    · obtain ⟨hlnotv, hlnotq⟩ : l ∉ visited ∧ l ∉ queue := by
        simpa using hcond
      have hq' : (queue ++ [l]).Nodup := by
        rw [List.nodup_append]
        exact ⟨hnd, List.nodup_singleton l,
          fun a ha hal => hlnotq ((List.mem_singleton.mp hal) ▸ ha)⟩
      have hnv' : ∀ u ∈ queue ++ [l], u ∉ visited := by
        intro u hu
        rcases List.mem_append.mp hu with h | h
        · exact hnv u h
        · exact (List.mem_singleton.mp h) ▸ hlnotv
      obtain ⟨e1, e2, e3⟩ := ih (queue ++ [l]) hq' hnv'
      have hstep : enqueueNew visited queue (l :: ls) =
          ((enqueueNew visited (queue ++ [l]) ls).1,
            l :: (enqueueNew visited (queue ++ [l]) ls).2) := by
        simp only [enqueueNew]
        rw [if_pos hcond]
      rw [hstep]
      refine ⟨?_, e2, e3⟩
      rw [e1, List.append_assoc]
      rfl
    · have hstep : enqueueNew visited queue (l :: ls) =
          enqueueNew visited queue ls := by
        simp only [enqueueNew, if_neg hcond]
      rw [hstep]
      exact ih queue hnd hnv

theorem simpleCrawlerLoop_nodup (links : Nat → List Nat) (fetch : Nat → Bool)
    (max_pages : Nat) (hfetch : ∀ u, fetch u = true) :
    ∀ (fuel : Nat) (queue : List Nat) (visited : Finset Nat) (log : List Nat),
      queue.Nodup → (∀ u ∈ queue, u ∉ visited) →
      log.Nodup → (∀ u ∈ log, u ∈ visited ∨ u ∈ queue) →
      ∀ lg, simpleCrawlerLoop links fetch max_pages fuel queue visited log =
          some lg →
        lg.Nodup := by
  intro fuel
  induction fuel with
  | zero =>
    intro queue visited log _ _ _ _ lg h
    exact Option.noConfusion h
  | succ fuel ih =>
    intro queue visited log hqnd hqv hlognd hlogin lg h
    cases queue with
    | nil =>
      rw [show simpleCrawlerLoop links fetch max_pages (fuel + 1) [] visited
          log = some log from rfl] at h
      cases h
      exact hlognd
    | cons url rest =>
      by_cases hM : visited.card < max_pages
      · have hmem : url ∉ visited := hqv url (List.mem_cons_self _ _)
        rw [show simpleCrawlerLoop links fetch max_pages (fuel + 1)
              (url :: rest) visited log =
            simpleCrawlerLoop links fetch max_pages fuel
              (enqueueNew (insert url visited) rest (links url)).1
              (insert url visited)
              (log ++ (enqueueNew (insert url visited) rest (links url)).2)
            from by simp [simpleCrawlerLoop, hM, hmem, hfetch url]] at h
        have hrestnd : rest.Nodup := (List.nodup_cons.mp hqnd).2
        have hurlrest : url ∉ rest := (List.nodup_cons.mp hqnd).1
        have hrestv : ∀ u ∈ rest, u ∉ insert url visited := by
          intro u hu
          rw [Finset.mem_insert]
          rintro (h' | h')
          · exact hurlrest (h' ▸ hu)
          · exact hqv u (List.mem_cons_of_mem _ hu) h'
        obtain ⟨e1, e2, e3⟩ :=
          enqueueNew_spec (insert url visited) (links url) rest hrestnd hrestv
        have happnd :
            (enqueueNew (insert url visited) rest (links url)).2.Nodup :=
          (List.nodup_append.mp (e1 ▸ e2)).2.1
        have hdisj : ∀ u ∈ rest,
            u ∉ (enqueueNew (insert url visited) rest (links url)).2 :=
          (List.nodup_append.mp (e1 ▸ e2)).2.2
        refine ih _ _ _ e2 e3 ?_ ?_ lg h
        · rw [List.nodup_append]
          refine ⟨hlognd, happnd, ?_⟩
          intro u hu hu'
          have huq : u ∈ (enqueueNew (insert url visited) rest (links url)).1 :=
            e1 ▸ List.mem_append_right _ hu'
          have hunv := e3 u huq
          rcases hlogin u hu with h' | h'
          · exact hunv (Finset.mem_insert_of_mem h')
          · rcases List.mem_cons.mp h' with h' | h'
            · exact hunv (h' ▸ Finset.mem_insert_self _ _)
            · exact hdisj u h' hu'
        · intro u hu
          rcases List.mem_append.mp hu with h' | h'
          · rcases hlogin u h' with h'' | h''
            · exact Or.inl (Finset.mem_insert_of_mem h'')
            · rcases List.mem_cons.mp h'' with h'' | h''
              · exact Or.inl (h'' ▸ Finset.mem_insert_self _ _)
              · exact Or.inr (e1 ▸ List.mem_append_left _ h'')
          · exact Or.inr (e1 ▸ List.mem_append_right _ h')
      · rw [show simpleCrawlerLoop links fetch max_pages (fuel + 1)
              (url :: rest) visited log = some log from by
            simp [simpleCrawlerLoop, hM]] at h
        cases h
        exact hlognd

/-- C5 (amended): the at-most-once enqueue invariant holds for
`SimpleCrawler.crawl` (and the conftest simulator), whose enqueue condition
`link not in self.visited and link not in to_visit` also checks frontier
membership, on runs in which every fetch succeeds: the whole-run append
trace then has no duplicate.  It is conditional on fetch success because a
URL whose `session.get` raised is popped but never marked visited
(`visited.add` follows the get), so a later page can re-enqueue it; and in
the two generator scripts the enqueue condition checks only the visited
set, so there an unvisited URL can be appended several times even on fully
successful runs (both failure modes are exhibited in the counterexample). -/
theorem simpleCrawler_enqueues_at_most_once (links : Nat → List Nat)
    (fetch : Nat → Bool) (max_pages fuel root : Nat) (lg : List Nat)
    (hfetch : ∀ u, fetch u = true)
    (h : simpleCrawlerLoop links fetch max_pages fuel [root] ∅ [] = some lg) :
    lg.Nodup :=
  simpleCrawlerLoop_nodup links fetch max_pages hfetch fuel [root] ∅ []
    (List.nodup_singleton root)
    (fun u _ => Finset.not_mem_empty u)
    List.nodup_nil
    (fun u hu => absurd hu (List.not_mem_nil u)) lg h

/-- C5 (counterexample): two refutations of "any given URL is appended to
the to_visit frontier queue at most once".  First, in the generator
scripts' crawl loop the enqueue check consults only the visited set, so a
page whose HTML links twice to the same not-yet-visited URL appends it
twice: with `links 0 = [1, 1]` the whole-run append trace is `[1, 1]`.
Second, even in `SimpleCrawler.crawl` a URL whose fetch raises is left
unvisited, so a later page re-enqueues it despite the frontier-membership
check: with `links 0 = [1, 2]`, `links 2 = [1]` and the fetch of URL 1
raising, the append trace is `[1, 2, 1]` — URL 1 enters the frontier twice
(and is fetched twice). -/
theorem crawl_enqueue_twice_counterexample :
    (crawlLoopTrace (fun n => if n = 0 then [1, 1] else []) 10 10 [0] ∅ [] =
      some [1, 1] ∧
    List.count 1 [1, 1] = 2) ∧
    (simpleCrawlerLoop
        (fun n => if n = 0 then [1, 2] else if n = 2 then [1] else [])
        (fun n => decide (n ≠ 1)) 10 10 [0] ∅ [] = some [1, 2, 1] ∧
    List.count 1 [1, 2, 1] = 2) := by
  exact ⟨⟨by decide, by decide⟩, ⟨by decide, by decide⟩⟩

/-- C5 (witness): the amended theorem on a concrete all-fetches-succeed run
of `SimpleCrawler` over a page that links twice to URL 5: the
frontier-membership check deduplicates and the append trace is `[5]`,
duplicate-free. -/
theorem simpleCrawler_enqueues_at_most_once_witness :
    ([5] : List Nat).Nodup :=
  simpleCrawler_enqueues_at_most_once (fun n => if n = 0 then [5, 5] else [])
    (fun _ => true) 3 5 0 [5] (fun _ => rfl) (by decide)

end Riptide
